import Mathlib

/- Verification development for the SandGrain Raspberry Pi edge
   authentication mediator.  The definitions below are a shallow embedding
   of the Python sources `Authentication.py`, `sga.py` and
   `pi_api_server.py`; each definition's doc comment names the source
   function and lines it embeds. -/

namespace RaspberryPi

/-! ## Authentication.py : integer / byte-list conversions -/

/-- `listToInt(lst)` (Authentication.py 35-37):
`reduce(lambda x,y:(x<<8)+y, lst)`.  `reduce` without an initial value
raises `TypeError` on an empty list, modelled as `none`; on a non-empty
list it folds from the first element. -/
def listToInt : List Nat → Option Nat
  | [] => none
  | x :: xs => some (xs.foldl (fun a b => (a <<< 8) + b) x)

/-- Fuel-bounded base-256 integer logarithm: `log256Aux fuel n` is
`floor (log_256 n)` whenever `1 ≤ n ≤ fuel`.  Structural recursion on the
fuel keeps the function kernel-evaluable. -/
def log256Aux : Nat → Nat → Nat
  | 0, _ => 0
  | fuel + 1, n => if n < 256 then 0 else log256Aux fuel (n / 256) + 1

/-- `floor (log_256 n)` for `n ≥ 1`, the integer part of the Python
expression `log(number, 256)`. -/
def floorLog256 (n : Nat) : Nat := log256Aux n n

/-- `intToList(number)` (Authentication.py 39-45).  The source computes
`L1 = log(number, 256)`, `L2 = ceil(L1)`, and bumps `L2` by one when
`L1 == L2`, i.e. when the logarithm is an integer, which happens exactly
when `number` is a power of 256; the float `log` is modelled as the exact
real logarithm (`ceil` of which is `floorLog256 n` at exact powers and
`floorLog256 n + 1` otherwise).  `math.log` raises `ValueError` for
`number ≤ 0`, modelled as `none`.  The comprehension extracts byte `i` as
`(number & (0xff << 8*i)) >> 8*i` for `i` in `reversed(range(L2))`. -/
def intToList (number : Int) : Option (List Nat) :=
  if number ≤ 0 then none
  else
    let n := number.toNat
    let f := floorLog256 n
    let c := if 256 ^ f = n then f else f + 1
    let L2 := if 256 ^ f = n then c + 1 else c
    some (((List.range L2).reverse).map fun i => (n &&& (0xff <<< (8 * i))) >>> (8 * i))

/-! ## sga.py : command tables and frame assembly -/

/-- sga.py 55. -/
def l_command_ident : List Nat := [0x01, 0x00, 0x00, 0x00]

/-- sga.py 56. -/
def l_command_bist : List Nat := [0x80, 0x00, 0x00, 0x00]

/-- sga.py 57. -/
def l_command_cr : List Nat := [0x03, 0x00, 0x08, 0x00]

/-- sga.py 58. -/
def l_command_cr_ek : List Nat := [0x07, 0x00, 0x08, 0x00]

/-- `assemble_bist_l()` (sga.py 158): `l_command_bist + [0]*68`. -/
def assemble_bist_l : List Nat := l_command_bist ++ List.replicate 68 0

/-- `assemble_id_l()` (sga.py 159): `l_command_ident + [0] + [0]*32`. -/
def assemble_id_l : List Nat := l_command_ident ++ [0] ++ List.replicate 32 0

/-- `assemble_cw_l(l_challenge)` (sga.py 160):
`l_command_cr + [0] + l_challenge + [0] + [0]*49`. -/
def assemble_cw_l (l_challenge : List Nat) : List Nat :=
  l_command_cr ++ [0] ++ l_challenge ++ [0] ++ List.replicate 49 0

/-- `assemble_ek_l(l_challenge)` (sga.py 161):
`l_command_cr_ek + [0] + l_challenge + [0] + [0]*65`. -/
def assemble_ek_l (l_challenge : List Nat) : List Nat :=
  l_command_cr_ek ++ [0] ++ l_challenge ++ [0] ++ List.replicate 65 0

/-! ## sga.py : field extraction (disassembly) -/

/-- sga.py 60-86: fixed field offsets of the inbound frame. -/
def API_I_IDENT_PART1_START : Nat := 5

def API_I_IDENT_PART1_LENGTH : Nat := 16

def API_I_IDENT_PART2_START : Nat := 21

def API_I_IDENT_PART2_LENGTH : Nat := 16

def API_I_RESP_START : Nat := 71

def API_I_RESP_LENGTH : Nat := 16

/-- Python list slicing `l[a:b]` for literal offsets `0 ≤ a ≤ b`: the
slice clamps at the end of the list and never raises. -/
def pySlice (l : List Nat) (a b : Nat) : List Nat := (l.drop a).take (b - a)

/-- `disassemble_l_id(l_r)` (sga.py 173-176): returns `(l_pcc, l_id)`,
each a plain slice of the response. -/
def disassemble_l_id (l_r : List Nat) : List Nat × List Nat :=
  (pySlice l_r API_I_IDENT_PART1_START (API_I_IDENT_PART1_START + API_I_IDENT_PART1_LENGTH),
   pySlice l_r API_I_IDENT_PART2_START (API_I_IDENT_PART2_START + API_I_IDENT_PART2_LENGTH))

/-- `disassemble_l_rw(l_r)` (sga.py 178-182): returns `(l_pcc, l_id, l_rw)`,
each a plain slice of the response. -/
def disassemble_l_rw (l_r : List Nat) : List Nat × List Nat × List Nat :=
  (pySlice l_r API_I_IDENT_PART1_START (API_I_IDENT_PART1_START + API_I_IDENT_PART1_LENGTH),
   pySlice l_r API_I_IDENT_PART2_START (API_I_IDENT_PART2_START + API_I_IDENT_PART2_LENGTH),
   pySlice l_r API_I_RESP_START (API_I_RESP_START + API_I_RESP_LENGTH))

/-! ## sga.py : wire hex codec of `do_ser_transfer_l` (109-118) -/

/-- Lowercase hex digit of `n < 16`, as produced by Python `'%02x'`:
digits then lowercase letters, which is what `Nat.digitChar` yields on
that range. -/
def hexDigit (n : Nat) : Char := Nat.digitChar n

/-- The two characters of `'%02x' % e` for one byte `e < 256`. -/
def byteToHexPair (e : Nat) : List Char := [hexDigit (e / 16), hexDigit (e % 16)]

/-- The outbound wire encoding (sga.py 111):
`''.join('%02x' % e for e in l) + "\r"`. -/
def encodeFrame (l : List Nat) : List Char := (l.map byteToHexPair).flatten ++ ['\r']

/-- Value of one hex digit as accepted by Python `int(s, 16)`
(both letter cases). -/
def hexDigitVal (c : Char) : Option Nat :=
  if '0' ≤ c ∧ c ≤ '9' then some (c.toNat - '0'.toNat)
  else if 'a' ≤ c ∧ c ≤ 'f' then some (c.toNat - 'a'.toNat + 10)
  else if 'A' ≤ c ∧ c ≤ 'F' then some (c.toNat - 'A'.toNat + 10)
  else none

/-- `int(s, 16)` on a two-character slice; `none` models the `ValueError`
raised on a non-hex character. -/
def hexPairVal (c1 c2 : Char) : Option Nat :=
  match hexDigitVal c1, hexDigitVal c2 with
  | some v1, some v2 => some (16 * v1 + v2)
  | _, _ => none

/-- The inbound decoding (sga.py 116):
`[int(resp_s[i:i+2], 16) for i in range(0, len(resp_s)-1, 2)]`.
The range takes the even offsets below `len - 1`, so the characters are
consumed pairwise and a final unpaired character (the carriage return of
a well-formed reply) is dropped. -/
def decodeResp : List Char → Option (List Nat)
  | c1 :: c2 :: rest =>
    match hexPairVal c1 c2, decodeResp rest with
    | some v, some vs => some (v :: vs)
    | _, _ => none
  | _ => some []

/-! ## sga.py : cloud verdict retrieval (`do_retrieve_result`, 390-424) -/

/-- Fuel-bounded model of the polling loop of `do_retrieve_result`
(sga.py 390-424).  `responses n` is the cloud's n-th check-status reply,
given as the pair of its `status` and `claimId` JSON fields.
`authenticationresult` starts as `NOT_READY`, so the loop body (sleep
100 ms, GET check-status, read `status`) runs at least once and repeats
while the status stays `NOT_READY`; there is no attempt counter in the
source, so `fuel` only bounds how far the model unrolls the loop and
`none` means the loop is still running after `fuel` polls.  On exit,
`claimid` is the final reply's `claimId` field when the final status is
`CLAIM_ID` and the empty string otherwise (419-423). -/
def do_retrieve_result (responses : Nat → String × String) : Nat → Nat → Option (String × String)
  | 0, _ => none
  | fuel + 1, k =>
    let st := (responses k).1
    if st = "NOT_READY" then do_retrieve_result responses fuel (k + 1)
    else some (st, if st = "CLAIM_ID" then (responses k).2 else "")

/-! ## pi_api_server.py : authenticate_logic result (206-242) -/

/-- The JSON object returned by `authenticate_logic`. -/
structure AuthResult where
  success : Bool
  authResult : String
  claimId : String
  deriving DecidableEq

/-- Lines 233-238 of pi_api_server.py, given the verdict pair
`(auth_result, claim_id)` returned by `sga.do_retrieve_result`:
`success` is `auth_result in ['CLAIM_ID', 'AUTH_OK']` and both fields are
passed through. -/
def authenticate_logic_result (auth_result claim_id : String) : AuthResult :=
  { success := (["CLAIM_ID", "AUTH_OK"] : List String).contains auth_result,
    authResult := auth_result,
    claimId := claim_id }

/-! ## pi_api_server.py : HTTP endpoints (342-391) -/

/-- The JSON body an endpoint returns: the `success` flag and the
optional `error` string. -/
structure JobResult where
  success : Bool
  error : Option String
  deriving DecidableEq

/-- `api_get_cw` (pi_api_server.py 342-355) as a function of the parsed
request body (`none` when `request.get_json()` returns `None`, otherwise
the set of keys present) and of the result `enqueue_and_wait` would
return for the job.  `if not data or "identity" not in data` returns 400;
otherwise the job result is returned with Flask's default status 200. -/
def api_get_cw (data : Option (List String)) (jobResult : JobResult) : Nat × JobResult :=
  match data with
  | none => (400, ⟨false, some "Missing identity parameter"⟩)
  | some keys =>
    if keys.contains "identity" then (200, jobResult)
    else (400, ⟨false, some "Missing identity parameter"⟩)

/-- pi_api_server.py 381. -/
def required_fields : List String := ["identity", "cw", "rw", "transactionId"]

/-- `api_authenticate` (pi_api_server.py 376-391).  With an absent JSON
body, `f in data` iterates over `None` and raises `TypeError`, which the
handler's blanket `except` turns into a 500 reply; with a body, a
non-empty `missing` list yields 400, and otherwise the job result is
returned with status 200. -/
def api_authenticate (data : Option (List String)) (jobResult : JobResult) : Nat × JobResult :=
  match data with
  | none => (500, ⟨false, some "argument of type NoneType is not iterable"⟩)
  | some keys =>
    let missing := required_fields.filter fun f => !(keys.contains f)
    if missing.isEmpty then (200, jobResult)
    else (400, ⟨false, some "Missing parameters"⟩)

/-! ## pi_api_server.py : serial concurrency model

All hardware exchanges of the server process happen on the single worker
thread started at line 142: the HTTP handlers and the MQTT `on_message`
callback only call `enqueue_and_wait` (which touches the command queue
and the response map, never the serial port), while `serial_worker`
(70-139) dequeues one job at a time and runs its logic function, which
is where every `sga.do_ser_transfer_l` call lives.  The state machine
below has one transition per thread action; only the worker owns
exchange transitions, and being a single sequential thread it can only
start an exchange when it is not already inside one. -/

/-- Program counter of the single worker thread: blocked on the queue,
running a job's logic function, or inside `do_ser_transfer_l`. -/
inductive WorkerPC where
  | idle
  | running
  | exchanging
  deriving DecidableEq

/-- State of the server process as seen by the serialization argument:
the command queue, the worker's program counter, and the number of
in-flight `do_ser_transfer_l` calls (across all threads). -/
structure CState where
  queue : List Nat
  pc : WorkerPC
  inFlight : Nat
  deriving DecidableEq

/-- Thread steps of pi_api_server.py.  `enqueueHttp` and `enqueueMqtt`
are the front-end actions (both only put a job on the queue);
`dequeue` is `command_queue.get`, `startExchange`/`endExchange` bracket a
`do_ser_transfer_l` call made by the job's logic function, and
`finishJob` stores the result and returns the worker to the queue.
A job may perform several exchanges. -/
inductive CStep : CState → CState → Prop where
  | enqueueHttp (s : CState) (j : Nat) :
      CStep s ⟨s.queue ++ [j], s.pc, s.inFlight⟩
  | enqueueMqtt (s : CState) (j : Nat) :
      CStep s ⟨s.queue ++ [j], s.pc, s.inFlight⟩
  | dequeue (s : CState) (j : Nat) (rest : List Nat)
      (hq : s.queue = j :: rest) (hpc : s.pc = WorkerPC.idle) :
      CStep s ⟨rest, WorkerPC.running, s.inFlight⟩
  | startExchange (s : CState) (h : s.pc = WorkerPC.running) :
      CStep s ⟨s.queue, WorkerPC.exchanging, s.inFlight + 1⟩
  | endExchange (s : CState) (h : s.pc = WorkerPC.exchanging) :
      CStep s ⟨s.queue, WorkerPC.running, s.inFlight - 1⟩
  | finishJob (s : CState) (h : s.pc = WorkerPC.running) :
      CStep s ⟨s.queue, WorkerPC.idle, s.inFlight⟩

/-- Initial state of the server process: empty queue, worker blocked on
the queue, no exchange in flight. -/
def cInit : CState := ⟨[], WorkerPC.idle, 0⟩

/-- States the server can reach from startup. -/
def CReachable (s : CState) : Prop := Relation.ReflTransGen CStep cInit s

/-! ## pi_api_server.py : job-queue / correlation-map model

State machine for the exactly-once-result argument (claim about
`serial_worker` 70-139 and `enqueue_and_wait` 245-284).  `queue` holds
the job ids sitting in `command_queue` in FIFO order, `started` the ids
in `job_start_times` (set when the worker dequeues a job, line 80),
`written` the history of writes to `response_map` (each cons is one
write), and `nextId` the supply of fresh ids (`uuid4` is modelled as a
counter, so every enqueue uses a new id).  The worker's store-result
block (113-116) writes the result and deletes the id from
`job_start_times` inside one `response_map_lock` section, and the
stalled-job sweep (123-136) likewise writes and deletes under the same
lock and only for ids still present in `job_start_times`; both are
therefore modelled as a single atomic step guarded by membership in
`started`, which is exactly the discipline that makes a second write for
the same id impossible. -/
structure QState where
  queue : List Nat
  started : List Nat
  written : List Nat
  nextId : Nat
  deriving DecidableEq

/-- Steps of the job-queue subsystem.  `enqueue` is `enqueue_and_wait`
putting a fresh job id on the queue (any front-end thread); `dequeue` is
the worker taking the head job and recording its start time; `complete`
is the worker's store-result block; `sweep` is the stalled-job branch.
`complete` and `sweep` have the same guard and effect: write once, and
remove the id from `job_start_times` in the same locked section. -/
inductive QStep : QState → QState → Prop where
  | enqueue (s : QState) :
      QStep s ⟨s.queue ++ [s.nextId], s.started, s.written, s.nextId + 1⟩
  | dequeue (s : QState) (j : Nat) (rest : List Nat) (hq : s.queue = j :: rest) :
      QStep s ⟨rest, j :: s.started, s.written, s.nextId⟩
  | complete (s : QState) (j : Nat) (h : j ∈ s.started) :
      QStep s ⟨s.queue, s.started.erase j, j :: s.written, s.nextId⟩
  | sweep (s : QState) (j : Nat) (h : j ∈ s.started) :
      QStep s ⟨s.queue, s.started.erase j, j :: s.written, s.nextId⟩

/-- Initial state: nothing queued, started or written. -/
def qInit : QState := ⟨[], [], [], 0⟩

/-- States the job-queue subsystem can reach from startup. -/
def QReachable (s : QState) : Prop := Relation.ReflTransGen QStep qInit s

/-! ## Theorems -/

/-- Helper: keeping the elements that fail a test leaves nothing exactly
when every element passes it. -/
theorem filter_not_isEmpty {α : Type} (p : α → Bool) (l : List α) :
    (l.filter fun f => !(p f)).isEmpty = l.all p := by
  induction l with
  | nil => rfl
  | cons a l ih => cases h : p a <;> simp [List.filter_cons, List.all_cons, h, ih]

/-- C5 counterexample: the Identify frame assembled by `assemble_id_l`
has 37 bytes (4 command bytes, one separator, 32 zeros), not 72, so the
claim that every assembled outbound frame is exactly 72 bytes is false. -/
theorem assemble_id_l_not_72 :
    assemble_id_l.length = 37 ∧ assemble_id_l.length ≠ 72 := by
  decide

/-- C5 (amended): outbound frame lengths per command: the BIST frame is
72 bytes; the Identify frame is 37 bytes; a ChallengeResponse frame is
55 + |challenge| bytes (71 bytes for the 16-byte challenge `do_rw_only`
sends, 87 bytes for the 32-byte PCCID `do_rw` sends); a
ChallengeResponseWithEK frame is 71 + |challenge| bytes.  All padding
bytes are zero. -/
theorem assemble_frame_lengths :
    assemble_bist_l.length = 72 ∧ assemble_id_l.length = 37 ∧
      ∀ c : List Nat, (assemble_cw_l c).length = 55 + c.length ∧
        (assemble_ek_l c).length = 71 + c.length := by
  refine ⟨by decide, by decide, fun c => ⟨?_, ?_⟩⟩
  · simp [assemble_cw_l, l_command_cr]
    omega
  · simp [assemble_ek_l, l_command_cr_ek]
    omega

/-- C4 counterexample: on a response of 86 bytes (one byte short of the
87 needed for the RW field at offset 71, length 16) `disassemble_l_rw`
does not fail: Python slicing clamps, so it silently returns a truncated
15-byte RW field.  There is no ShortFrame error anywhere in the code. -/
theorem disassemble_l_rw_truncates_silently :
    disassemble_l_rw (List.replicate 86 0) =
      (List.replicate 16 0, List.replicate 16 0, List.replicate 15 0) ∧
      (disassemble_l_rw (List.replicate 86 0)).2.2.length ≠ 16 := by
  decide

/-- C4 (amended): field extraction is total and never fails: each field
is a Python slice, which clamps at the end of the response, so a
response shorter than offset + length of a requested field silently
yields a truncated (possibly empty) field.  The extracted lengths are
`min 16 (len - offset)` with truncated subtraction. -/
theorem disassemble_clamps (l : List Nat) :
    (disassemble_l_id l).1.length = min 16 (l.length - 5) ∧
      (disassemble_l_id l).2.length = min 16 (l.length - 21) ∧
      (disassemble_l_rw l).2.2.length = min 16 (l.length - 71) := by
  refine ⟨?_, ?_, ?_⟩ <;>
    simp [disassemble_l_id, disassemble_l_rw, pySlice,
      API_I_IDENT_PART1_START, API_I_IDENT_PART1_LENGTH,
      API_I_IDENT_PART2_START, API_I_IDENT_PART2_LENGTH,
      API_I_RESP_START, API_I_RESP_LENGTH]

/-- C3 counterexample: when the cloud answers `NOT_READY` on every poll,
the status loop of `do_retrieve_result` is still running after 100 polls,
far beyond the claimed 30-40 attempt bound. -/
theorem do_retrieve_result_exceeds_40_polls :
    do_retrieve_result (fun _ => ("NOT_READY", "")) 100 0 = none := by
  decide

/-- C3 (amended): the status-polling loop of `do_retrieve_result` has no
attempt bound: it repeats (with a 100 ms sleep) while the status is
`NOT_READY`, so if the cloud returns `NOT_READY` forever the loop never
exits — no finite unrolling of the loop terminates.  It terminates only
when some poll returns a status other than `NOT_READY`. -/
theorem do_retrieve_result_unbounded (cids : Nat → String) :
    ∀ fuel k, do_retrieve_result (fun n => ("NOT_READY", cids n)) fuel k = none := by
  intro fuel
  induction fuel with
  | zero => intro k; rfl
  | succ fuel ih =>
      intro k
      simp only [do_retrieve_result, if_pos rfl]
      exact ih (k + 1)

/-- C6: verdict mapping of the final cloud status.  When the `k`-th poll
returns a status other than `NOT_READY`, `do_retrieve_result` stops
there and the pair it returns, fed through `authenticate_logic`, gives:
`AUTH_OK` → success with empty claim id; `CLAIM_ID` → success with the
cloud's `claimId` field carried through; any other verdict → failure
with empty claim id. -/
theorem verdict_mapping (responses : Nat → String × String) (k fuel : Nat)
    (st cid : String) (h : (responses k).1 ≠ "NOT_READY")
    (hout : do_retrieve_result responses (fuel + 1) k = some (st, cid)) :
    st = (responses k).1 ∧
      (st = "AUTH_OK" → (authenticate_logic_result st cid).success = true ∧ cid = "") ∧
      (st = "CLAIM_ID" →
        (authenticate_logic_result st cid).success = true ∧ cid = (responses k).2) ∧
      (st ≠ "AUTH_OK" → st ≠ "CLAIM_ID" →
        (authenticate_logic_result st cid).success = false ∧ cid = "") := by
  rw [do_retrieve_result, if_neg h] at hout
  injection hout with hout
  have hst : st = (responses k).1 := (congrArg Prod.fst hout).symm
  have hcid : cid = if st = "CLAIM_ID" then (responses k).2 else "" := by
    rw [hst]
    exact (congrArg Prod.snd hout).symm
  refine ⟨hst, ?_, ?_, ?_⟩
  · intro hok
    have hnc : st ≠ "CLAIM_ID" := by rw [hok]; decide
    rw [if_neg hnc] at hcid
    simp [authenticate_logic_result, hok, hcid]
  · intro hc
    rw [if_pos hc] at hcid
    simp [authenticate_logic_result, hc, hcid]
  · intro hok hc
    rw [if_neg hc] at hcid
    simp [authenticate_logic_result, hok, hc, hcid]

/-- C6 witness: at the concrete response stream whose first poll returns
status `CLAIM_ID` with claim id `C42`, the orchestrator result is a
success carrying `C42`. -/
theorem verdict_mapping_witness :
    (authenticate_logic_result "CLAIM_ID" "C42").success = true :=
  ((verdict_mapping (fun _ => ("CLAIM_ID", "C42")) 0 0 "CLAIM_ID" "C42"
    (by decide) (by decide)).2.2.1 rfl).1

/-- C7 counterexample: a failed request is not always answered with 400
or 500: when all parameters are present but the job result reports a
failure (a device/cloud error caught by the worker, or the producer-side
timeout of `enqueue_and_wait`), `api_authenticate` returns it with
Flask's default HTTP status 200. -/
theorem api_authenticate_failure_status_200 :
    (api_authenticate (some required_fields) ⟨false, some "device timeout"⟩).2.success = false ∧
      (api_authenticate (some required_fields) ⟨false, some "device timeout"⟩).1 = 200 ∧
      (api_authenticate (some required_fields) ⟨false, some "device timeout"⟩).1 ≠ 400 ∧
      (api_authenticate (some required_fields) ⟨false, some "device timeout"⟩).1 ≠ 500 := by
  decide

/-- C7 (amended): status codes of the failure paths: a missing-parameter
error detected by the handler yields 400 with an error string, except
that an entirely absent JSON body on `/api/authenticate` raises inside
the handler and yields 500; when all required parameters are present the
job result — including job-level failures, which carry `success = false`
and an error string — is returned with HTTP status 200. -/
theorem api_status_codes (keys : List String) (jobResult : JobResult) :
    api_get_cw none jobResult = (400, ⟨false, some "Missing identity parameter"⟩) ∧
      (api_authenticate none jobResult).1 = 500 ∧
      (keys.contains "identity" = false →
        api_get_cw (some keys) jobResult = (400, ⟨false, some "Missing identity parameter"⟩)) ∧
      (keys.contains "identity" = true →
        api_get_cw (some keys) jobResult = (200, jobResult)) ∧
      ((required_fields.all fun f => keys.contains f) = false →
        (api_authenticate (some keys) jobResult).1 = 400) ∧
      ((required_fields.all fun f => keys.contains f) = true →
        api_authenticate (some keys) jobResult = (200, jobResult)) := by
  have hfilter : (required_fields.filter fun f => !(keys.contains f)).isEmpty
      = required_fields.all fun f => keys.contains f :=
    filter_not_isEmpty (fun f => keys.contains f) required_fields
  refine ⟨rfl, rfl, ?_, ?_, ?_, ?_⟩
  · intro h; simp only [api_get_cw, h, Bool.false_eq_true, if_false]
  · intro h; simp only [api_get_cw, h, if_true]
  · intro h
    rw [h] at hfilter
    simp only [api_authenticate, hfilter, Bool.false_eq_true, if_false]
  · intro h
    rw [h] at hfilter
    simp only [api_authenticate, hfilter, if_true]

/-- C7 witness: with every required field present and a successful job
result, `/api/authenticate` replies 200 with the result; with an absent
body, `/api/get-cw` replies 400 with an error string. -/
theorem api_status_codes_witness :
    api_authenticate (some ["identity", "cw", "rw", "transactionId"]) ⟨true, none⟩
        = (200, ⟨true, none⟩) ∧
      api_get_cw none ⟨true, none⟩ = (400, ⟨false, some "Missing identity parameter"⟩) := by
  have h := api_status_codes ["identity", "cw", "rw", "transactionId"] ⟨true, none⟩
  exact ⟨h.2.2.2.2.2 (by decide), h.1⟩

/-- Helper: a hex digit below 16 is decoded back to itself. -/
theorem hexDigitVal_hexDigit : ∀ n : Nat, n < 16 → hexDigitVal (hexDigit n) = some n := by
  decide

/-- Helper: the two digits of `'%02x' % e` decode back to the byte `e`. -/
theorem hexPairVal_byte (e : Nat) (h : e < 256) :
    hexPairVal (hexDigit (e / 16)) (hexDigit (e % 16)) = some e := by
  have h1 : e / 16 < 16 := Nat.div_lt_of_lt_mul (by omega)
  have h2 : e % 16 < 16 := Nat.mod_lt _ (by norm_num)
  rw [hexPairVal, hexDigitVal_hexDigit _ h1, hexDigitVal_hexDigit _ h2]
  simp only
  rw [Nat.div_add_mod]

/-- C9: decode-of-encode roundtrip of the serial wire format.  For any
valid outbound frame (every byte below 256), decoding the wire encoding
(lowercase hex pairs followed by a carriage return) pairwise, as
`do_ser_transfer_l` does on the inbound path, recovers the frame. -/
theorem decode_encode_frame (l : List Nat) (h : ∀ e ∈ l, e < 256) :
    decodeResp (encodeFrame l) = some l := by
  induction l with
  | nil => rfl
  | cons e l ih =>
      have he : e < 256 := h e (List.mem_cons_self e l)
      have hrest : ∀ x ∈ l, x < 256 := fun x hx => h x (List.mem_cons_of_mem e hx)
      show decodeResp (((e :: l).map byteToHexPair).flatten ++ ['\r']) = some (e :: l)
      rw [List.map_cons, List.flatten_cons, List.append_assoc]
      show decodeResp (hexDigit (e / 16) :: hexDigit (e % 16) :: encodeFrame l) = some (e :: l)
      rw [decodeResp, hexPairVal_byte e he, ih hrest]

/-- C9 witness: the roundtrip at the concrete frame `[0, 171, 255, 16]`. -/
theorem decode_encode_frame_witness :
    decodeResp (encodeFrame [0, 171, 255, 16]) = some [0, 171, 255, 16] :=
  decode_encode_frame [0, 171, 255, 16] (by decide)

/-- Helper: with enough fuel, `log256Aux` is the base-256 floor
logarithm: it brackets `n` between consecutive powers of 256. -/
theorem log256Aux_spec :
    ∀ fuel n : Nat, 1 ≤ n → n ≤ fuel →
      256 ^ log256Aux fuel n ≤ n ∧ n < 256 ^ (log256Aux fuel n + 1) := by
  intro fuel
  induction fuel with
  | zero => intro n h1 h2; omega
  | succ fuel ih =>
      intro n h1 h2
      by_cases hn : n < 256
      · simp only [log256Aux, if_pos hn]
        constructor
        · simpa using h1
        · simpa using hn
      · simp only [log256Aux, if_neg hn]
        have hd1 : 1 ≤ n / 256 := (Nat.one_le_div_iff (by norm_num)).2 (by omega)
        have hlt : n / 256 < n := Nat.div_lt_self (by omega) (by norm_num)
        obtain ⟨ha, hb⟩ := ih (n / 256) hd1 (by omega)
        have hmul : n / 256 * 256 ≤ n := Nat.div_mul_le_self n 256
        have hmod := Nat.div_add_mod n 256
        have hmodlt : n % 256 < 256 := Nat.mod_lt _ (by norm_num)
        constructor
        · calc 256 ^ (log256Aux fuel (n / 256) + 1)
              = 256 ^ log256Aux fuel (n / 256) * 256 := by rw [pow_succ]
            _ ≤ n / 256 * 256 := Nat.mul_le_mul_right 256 ha
            _ ≤ n := hmul
        · calc n < (n / 256 + 1) * 256 := by omega
            _ ≤ 256 ^ (log256Aux fuel (n / 256) + 1) * 256 := by
                exact Nat.mul_le_mul_right 256 (by omega)
            _ = 256 ^ (log256Aux fuel (n / 256) + 1 + 1) := by ring

/-- Helper: `floorLog256` brackets a positive `n` between consecutive
powers of 256. -/
theorem floorLog256_spec (n : Nat) (h : 1 ≤ n) :
    256 ^ floorLog256 n ≤ n ∧ n < 256 ^ (floorLog256 n + 1) :=
  log256Aux_spec n n h le_rfl

/-- Helper: the base-256 floor logarithm of `256 ^ k` is `k`. -/
theorem floorLog256_pow (k : Nat) : floorLog256 (256 ^ k) = k := by
  obtain ⟨ha, hb⟩ := floorLog256_spec (256 ^ k) (Nat.one_le_pow _ _ (by norm_num))
  have h1 : floorLog256 (256 ^ k) ≤ k :=
    (Nat.pow_le_pow_iff_right (by norm_num)).1 ha
  have h2 : k < floorLog256 (256 ^ k) + 1 :=
    (Nat.pow_lt_pow_iff_right (by norm_num)).1 hb
  omega

/-- Helper: the mask-and-shift byte extraction of the source,
`(n & (0xff << 8*i)) >> 8*i`, is the base-256 digit `n / 256 ^ i % 256`. -/
theorem byteExtract_eq (n i : Nat) :
    (n &&& (0xff <<< (8 * i))) >>> (8 * i) = n / 256 ^ i % 256 := by
  have h256 : (256 : Nat) ^ i = 2 ^ (8 * i) := by
    rw [show (256 : Nat) = 2 ^ 8 by norm_num, ← pow_mul]
  rw [h256, ← Nat.shiftRight_eq_div_pow,
    show (256 : Nat) = 2 ^ 8 by norm_num, ← Nat.and_pow_two_sub_one_eq_mod]
  apply Nat.eq_of_testBit_eq
  intro j
  simp only [Nat.testBit_shiftRight, Nat.testBit_and, Nat.testBit_shiftLeft,
    show (0xff : Nat) = 2 ^ 8 - 1 by norm_num, Nat.testBit_two_pow_sub_one]
  by_cases hj : j < 8
  · simp [hj, Nat.add_sub_cancel_left]
  · simp [hj]

/-- Helper: for positive `number`, `intToList` returns the big-endian
base-256 digits of `number` with `floorLog256 + 1` digits: both branches
of the source's `L2` computation produce that count (the `ceil` loses one
digit at exact powers of 256 and the `L2 += 1` quirk restores it). -/
theorem intToList_pos (m : Nat) (h : 1 ≤ m) :
    intToList (m : Int) = some
      (((List.range (floorLog256 m + 1)).reverse).map fun i => m / 256 ^ i % 256) := by
  have hpos : ¬ ((m : Int) ≤ 0) := by
    simp only [not_le]
    exact_mod_cast h
  rw [intToList, if_neg hpos]
  simp only [Int.toNat_natCast]
  by_cases hexact : 256 ^ floorLog256 m = m
  · rw [if_pos hexact, if_pos hexact]
    simp only [byteExtract_eq]
  · rw [if_neg hexact, if_neg hexact]
    simp only [byteExtract_eq]

/-- C2 counterexample: at `k = 0`, `intToList (256 ^ 0) = intToList 1`
is `[1]`, a list of length 1, not `0 + 2`: the `ceil` of the logarithm
already undercounts by one exactly at powers of 256, so the source's
`L2 += 1` restores the minimal length instead of exceeding it. -/
theorem intToList_pow_zero_length :
    (intToList ((256 : Int) ^ 0)).map List.length = some 1 ∧ (1 : Nat) ≠ 0 + 2 := by
  decide

/-- C2 (amended): for every `k`, `intToList (256 ^ k)` is a list of
length `k + 1` — exactly the number of base-256 digits of `256 ^ k`,
not one more: at an exact power of 256 the `ceil` of the logarithm
equals the floor `k` (one fewer than the digit count), and the source's
`L2 += 1` quirk brings the length back to the minimal `k + 1`. -/
theorem intToList_pow_length (k : Nat) :
    (intToList ((256 : Int) ^ k)).map List.length = some (k + 1) := by
  have hcast : ((256 : Int) ^ k) = ((256 ^ k : Nat) : Int) := by push_cast; ring
  rw [hcast, intToList_pos (256 ^ k) (Nat.one_le_pow _ _ (by norm_num))]
  simp [floorLog256_pow]

/-- Helper: folding the big-endian base-256 digit list of `n` (digits
`L - 1` down to `0`) with `(a << 8) + b` from `acc` yields
`acc * 256 ^ L + n % 256 ^ L`. -/
theorem foldl_digits (n : Nat) :
    ∀ L acc : Nat,
      (((List.range L).reverse).map fun i => n / 256 ^ i % 256).foldl
        (fun a b => (a <<< 8) + b) acc = acc * 256 ^ L + n % 256 ^ L := by
  intro L
  induction L with
  | zero => intro acc; simp [Nat.mod_one]
  | succ L ih =>
      intro acc
      rw [List.range_succ, List.reverse_append, List.reverse_singleton,
        List.singleton_append, List.map_cons, List.foldl_cons]
      rw [ih ((acc <<< 8) + n / 256 ^ L % 256)]
      rw [Nat.shiftLeft_eq]
      have h28 : (2 : Nat) ^ 8 = 256 := by norm_num
      rw [h28, pow_succ, Nat.mod_mul]
      ring

/-- C10: `listToInt` folds `intToList` back: for every positive integer
`n`, `intToList n` succeeds and `listToInt` applied to the resulting
big-endian byte list returns `n`; for `n ≤ 0`, `intToList` fails
(`math.log` raises on non-positive arguments), modelled as `none`. -/
theorem listToInt_intToList (n : Int) :
    (n ≤ 0 → intToList n = none) ∧
      (0 < n → (intToList n).bind listToInt = some n.toNat) := by
  constructor
  · intro h
    rw [intToList, if_pos h]
  · intro h
    have hm : 1 ≤ n.toNat := by omega
    have hcast : (n.toNat : Int) = n := Int.toNat_of_nonneg (by omega)
    rw [← hcast, intToList_pos n.toNat hm]
    simp only [Int.toNat_natCast, Option.some_bind]
    obtain ⟨ha, hb⟩ := floorLog256_spec n.toNat hm
    rw [List.range_succ, List.reverse_append, List.reverse_singleton,
      List.singleton_append, List.map_cons]
    simp only [listToInt]
    rw [foldl_digits]
    congr 1
    have hsplit := Nat.mod_mul (a := 256 ^ floorLog256 n.toNat) (b := 256) (x := n.toNat)
    have hmod : n.toNat % 256 ^ (floorLog256 n.toNat + 1) = n.toNat := Nat.mod_eq_of_lt hb
    rw [pow_succ] at hmod
    rw [Nat.mul_comm]
    omega

/-- C10 witness: the roundtrip at `n = 5`, and failure at `n = -3`. -/
theorem listToInt_intToList_witness :
    intToList (-3 : Int) = none ∧
      (intToList (5 : Int)).bind listToInt = some ((5 : Int).toNat) :=
  ⟨(listToInt_intToList (-3)).1 (by decide), (listToInt_intToList 5).2 (by decide)⟩

/-- Invariant of the serial concurrency model: an exchange is in flight
exactly while the worker thread sits inside `do_ser_transfer_l`. -/
def cInv (s : CState) : Prop :=
  s.inFlight = if s.pc = WorkerPC.exchanging then 1 else 0

/-- Helper: every thread step of the server preserves `cInv`. -/
theorem cInv_preserved {s t : CState} (h : CStep s t) (hs : cInv s) : cInv t := by
  cases h with
  | enqueueHttp j => exact hs
  | enqueueMqtt j => exact hs
  | dequeue j rest hq hpc => simp_all [cInv]
  | startExchange hpc => simp_all [cInv]
  | endExchange hpc => simp_all [cInv]
  | finishJob hpc => simp_all [cInv]

/-- C1: in every state the server process can reach, the number of
in-flight `do_ser_transfer_l` calls is at most one, across all devices
and all jobs: the HTTP handlers and the MQTT callback only enqueue,
and the single sequential worker thread is the only caller of the
serial exchange, so no two exchanges ever overlap. -/
theorem serial_exchanges_never_overlap (s : CState) (h : CReachable s) :
    s.inFlight ≤ 1 := by
  have hinv : cInv s := by
    induction h with
    | refl => simp [cInv, cInit]
    | tail _ hstep ih => exact cInv_preserved hstep ih
  rw [hinv]
  split <;> simp

/-- C1 witness: the state reached by enqueuing one HTTP job, dequeuing
it and entering an exchange has one exchange in flight, within the
bound. -/
theorem serial_exchanges_never_overlap_witness :
    (CState.mk [] WorkerPC.exchanging 1).inFlight ≤ 1 := by
  apply serial_exchanges_never_overlap
  have h1 : CStep cInit ⟨[0], WorkerPC.idle, 0⟩ := CStep.enqueueHttp cInit 0
  have h2 : CStep ⟨[0], WorkerPC.idle, 0⟩ ⟨[], WorkerPC.running, 0⟩ :=
    CStep.dequeue _ 0 [] rfl rfl
  have h3 : CStep ⟨[], WorkerPC.running, 0⟩ ⟨[], WorkerPC.exchanging, 1⟩ :=
    CStep.startExchange _ rfl
  exact Relation.ReflTransGen.tail
    (Relation.ReflTransGen.tail (Relation.ReflTransGen.tail Relation.ReflTransGen.refl h1) h2) h3

/-- Invariant of the job-queue model: the three id collections are
duplicate-free and pairwise disjoint, and the ids ever handed out
(`j < nextId`) are exactly those sitting in the queue, the start-time
table, or the write history. -/
def qInv (s : QState) : Prop :=
  s.queue.Nodup ∧ s.started.Nodup ∧ s.written.Nodup ∧
    (∀ j ∈ s.queue, j ∉ s.started) ∧
    (∀ j ∈ s.queue, j ∉ s.written) ∧
    (∀ j ∈ s.started, j ∉ s.written) ∧
    (∀ j, j < s.nextId ↔ (j ∈ s.queue ∨ j ∈ s.started ∨ j ∈ s.written))

/-- Helper: every step of the job-queue subsystem preserves `qInv`. -/
theorem qInv_preserved {s t : QState} (h : QStep s t) (hs : qInv s) : qInv t := by
  obtain ⟨hq, hst, hw, hqs, hqw, hsw, hiff⟩ := hs
  cases h with
  | enqueue =>
      have hfq : s.nextId ∉ s.queue := fun hmem =>
        absurd ((hiff s.nextId).2 (Or.inl hmem)) (by omega)
      have hfs : s.nextId ∉ s.started := fun hmem =>
        absurd ((hiff s.nextId).2 (Or.inr (Or.inl hmem))) (by omega)
      have hfw : s.nextId ∉ s.written := fun hmem =>
        absurd ((hiff s.nextId).2 (Or.inr (Or.inr hmem))) (by omega)
      refine ⟨?_, hst, hw, ?_, ?_, hsw, ?_⟩
      · rw [List.nodup_append]
        exact ⟨hq, List.nodup_singleton _, fun a ha hb => by
          rw [List.mem_singleton] at hb
          exact hfq (hb ▸ ha)⟩
      · intro j hj
        rcases List.mem_append.1 hj with hj | hj
        · exact hqs j hj
        · rw [List.mem_singleton] at hj
          exact hj ▸ hfs
      · intro j hj
        rcases List.mem_append.1 hj with hj | hj
        · exact hqw j hj
        · rw [List.mem_singleton] at hj
          exact hj ▸ hfw
      · intro j
        have hold := hiff j
        simp only [List.mem_append, List.mem_singleton]
        constructor
        · intro hj
          rcases Nat.lt_succ_iff_lt_or_eq.1 hj with hj | hj
          · rcases hold.1 hj with hm | hm | hm
            · exact Or.inl (Or.inl hm)
            · exact Or.inr (Or.inl hm)
            · exact Or.inr (Or.inr hm)
          · exact Or.inl (Or.inr hj)
        · rintro ((hm | hm) | hm | hm)
          · exact Nat.lt_succ_of_lt (hold.2 (Or.inl hm))
          · omega
          · exact Nat.lt_succ_of_lt (hold.2 (Or.inr (Or.inl hm)))
          · exact Nat.lt_succ_of_lt (hold.2 (Or.inr (Or.inr hm)))
  | dequeue j rest hqeq =>
      have hqcons : (j :: rest).Nodup := hqeq ▸ hq
      have hjq : j ∈ s.queue := hqeq ▸ List.mem_cons_self j rest
      have hrest : ∀ i ∈ rest, i ∈ s.queue := fun i hi =>
        hqeq ▸ List.mem_cons_of_mem j hi
      refine ⟨(List.nodup_cons.1 hqcons).2, ?_, hw, ?_, ?_, ?_, ?_⟩
      · exact List.nodup_cons.2 ⟨hqs j hjq, hst⟩
      · intro i hi
        rw [List.mem_cons]
        rintro (hij | his)
        · exact (List.nodup_cons.1 hqcons).1 (hij ▸ hi)
        · exact hqs i (hrest i hi) his
      · intro i hi
        exact hqw i (hrest i hi)
      · intro i hi
        rcases List.mem_cons.1 hi with hij | his
        · exact hij ▸ hqw j hjq
        · exact hsw i his
      · intro i
        have hold := hiff i
        rw [hqeq] at hold
        simp only [List.mem_cons] at hold ⊢
        tauto
  | complete j hj =>
      have hjw : j ∉ s.written := hsw j hj
      refine ⟨hq, hst.erase j, List.nodup_cons.2 ⟨hjw, hw⟩, ?_, ?_, ?_, ?_⟩
      · intro i hi his
        exact hqs i hi (List.mem_of_mem_erase his)
      · intro i hi
        rw [List.mem_cons]
        rintro (hij | hiw)
        · exact hqs i hi (hij ▸ hj)
        · exact hqw i hi hiw
      · intro i hi
        rw [hst.mem_erase_iff] at hi
        rw [List.mem_cons]
        rintro (hij | hiw)
        · exact hi.1 hij
        · exact hsw i hi.2 hiw
      · intro i
        have hold := hiff i
        rw [hst.mem_erase_iff]
        simp only [List.mem_cons]
        by_cases hij : i = j
        · subst hij
          constructor
          · intro _; exact Or.inr (Or.inr (Or.inl rfl))
          · intro _; exact hold.2 (Or.inr (Or.inl hj))
        · tauto
  | sweep j hj =>
      have hjw : j ∉ s.written := hsw j hj
      refine ⟨hq, hst.erase j, List.nodup_cons.2 ⟨hjw, hw⟩, ?_, ?_, ?_, ?_⟩
      · intro i hi his
        exact hqs i hi (List.mem_of_mem_erase his)
      · intro i hi
        rw [List.mem_cons]
        rintro (hij | hiw)
        · exact hqs i hi (hij ▸ hj)
        · exact hqw i hi hiw
      · intro i hi
        rw [hst.mem_erase_iff] at hi
        rw [List.mem_cons]
        rintro (hij | hiw)
        · exact hi.1 hij
        · exact hsw i hi.2 hiw
      · intro i
        have hold := hiff i
        rw [hst.mem_erase_iff]
        simp only [List.mem_cons]
        by_cases hij : i = j
        · subst hij
          constructor
          · intro _; exact Or.inr (Or.inr (Or.inl rfl))
          · intro _; exact hold.2 (Or.inr (Or.inl hj))
        · tauto

/-- C8: in every reachable state of the job-queue subsystem, no job id
has more than one result write in the `response_map` write history, and
once the queue and the start-time table are drained every id ever
enqueued has exactly one write: the worker writes once on completion,
and the stalled-job sweep can only write for an id still present in
`job_start_times`, which every write removes in the same locked
section. -/
theorem job_result_written_once (s : QState) (h : QReachable s) :
    (∀ j, s.written.count j ≤ 1) ∧
      (s.queue = [] → s.started = [] → ∀ j, j < s.nextId → s.written.count j = 1) := by
  have hinv : qInv s := by
    induction h with
    | refl =>
        refine ⟨List.nodup_nil, List.nodup_nil, List.nodup_nil, ?_, ?_, ?_, ?_⟩ <;>
          simp [qInit]
    | tail _ hstep ih => exact qInv_preserved hstep ih
  obtain ⟨hq, hst, hw, hqs, hqw, hsw, hiff⟩ := hinv
  constructor
  · intro j
    exact List.nodup_iff_count_le_one.1 hw j
  · intro hqe hse j hj
    rcases (hiff j).1 hj with hm | hm | hm
    · rw [hqe] at hm
      cases hm
    · rw [hse] at hm
      cases hm
    · exact List.count_eq_one_of_mem hw hm

/-- C8 witness: after enqueue, dequeue and completion of one job, the
drained state has exactly one write for job id 0. -/
theorem job_result_written_once_witness :
    (QState.mk [] [] [0] 1).written.count 0 = 1 := by
  have hreach : QReachable ⟨[], [], [0], 1⟩ := by
    have h1 : QStep qInit ⟨[0], [], [], 1⟩ := QStep.enqueue qInit
    have h2 : QStep ⟨[0], [], [], 1⟩ ⟨[], [0], [], 1⟩ := QStep.dequeue _ 0 [] rfl
    have h3 : QStep ⟨[], [0], [], 1⟩ ⟨[], [], [0], 1⟩ :=
      QStep.complete _ 0 (List.mem_cons_self 0 [])
    exact Relation.ReflTransGen.tail
      (Relation.ReflTransGen.tail (Relation.ReflTransGen.tail Relation.ReflTransGen.refl h1) h2) h3
  exact (job_result_written_once ⟨[], [], [0], 1⟩ hreach).2 rfl rfl 0 (by decide)

end RaspberryPi
